import Mathlib

/-!
# Verification of the audio2video conversion pipeline

Shallow embedding of the conversion pipeline of the `audio2video` repository
(`src/converter.py`, `src/utils.py`, `src/app.py`) and proofs about it.

Modelling conventions:
* Paths are `String`s; the file system visible to `get_unique_output_path` is the
  list of paths that exist at call time.
* Python `float` arithmetic is modelled with `ℚ` (the progress computations are
  branch- and comparison-level properties that do not depend on rounding).
* The ffmpeg subprocess is modelled by its observable behaviour: the list of
  progress lines read from its stdout (`readline` results up to EOF), its exit
  code, its stderr contents, and whether the output file exists afterwards.
* The cooperative-cancellation callback is a function `Nat → Bool` giving the
  value returned by `cancel_check()` at the i-th polling point; the worker's
  shared `self.cancelled` flag is a single such function threaded through all
  polling points of a batch.
* Side effects that do not flow into the return value (terminating, killing,
  deleting the partial output, waiting for exit) are recorded as an `ProcAction`
  trace so that claims about them can be stated.
-/

/-- Python `str.strip()` on a character list (whitespace on both ends;
`\f`/`\v` are not modelled). -/
def pyStrip (cs : List Char) : List Char :=
  ((cs.dropWhile Char.isWhitespace).reverse.dropWhile Char.isWhitespace).reverse

/-- Python `str.split(sep)` for a one-character separator, on character
lists (`"".split(sep) == [""]`). -/
def splitOnChar (sep : Char) : List Char → List (List Char)
  | [] => [[]]
  | c :: rest =>
    let r := splitOnChar sep rest
    if c = sep then [] :: r
    else
      match r with
      | [] => [[c]]
      | h :: t => (c :: h) :: t

/-- Characters `0`–`9` read as a base-10 number, most significant first
(Python `int` digit accumulation). -/
def digitsVal (cs : List Char) : Nat :=
  cs.foldl (fun a c => a * 10 + (c.toNat - 48)) 0

/-- Nonempty and all decimal digits. -/
def isDigits (cs : List Char) : Bool :=
  !cs.isEmpty && cs.all (·.isDigit)

/-- Python `int(s)`: optional surrounding whitespace, optional sign, a nonempty
run of decimal digits; anything else raises `ValueError`, modelled as `none`.
(Underscore digit separators are not modelled.) -/
def parseInt (s : String) : Option Int :=
  match pyStrip s.data with
  | '-' :: rest => if isDigits rest then some (-(digitsVal rest : Int)) else none
  | '+' :: rest => if isDigits rest then some ((digitsVal rest : Int)) else none
  | cs => if isDigits cs then some ((digitsVal cs : Int)) else none

/-- Python `float(s)` restricted to plain decimal forms `ddd`, `ddd.ddd`,
`.ddd`, `ddd.` (the forms ffmpeg emits); exponent/`inf`/`nan` forms are not
modelled. `none` models `ValueError`. -/
def parseUnsignedFloat (t : List Char) : Option ℚ :=
  match splitOnChar '.' t with
  | [a] => if isDigits a then some (digitsVal a : ℚ) else none
  | [a, b] =>
      if (isDigits a || a.isEmpty) && (isDigits b || b.isEmpty)
          && !(a.isEmpty && b.isEmpty) then
        some ((digitsVal a : ℚ) + (digitsVal b : ℚ) / (10 : ℚ) ^ b.length)
      else none
  | _ => none

/-- Python `float(s)` with optional surrounding whitespace and sign. -/
def parseFloat (s : String) : Option ℚ :=
  match pyStrip s.data with
  | '-' :: rest => (parseUnsignedFloat rest).map (fun q => -q)
  | '+' :: rest => parseUnsignedFloat rest
  | cs => parseUnsignedFloat cs

/-- `converter.ConversionResult`. -/
structure ConversionResult where
  success : Bool
  output_path : Option String
  error_message : Option String
deriving DecidableEq

/-- Python truthiness of an `Optional[float]` (`None` and `0.0` are falsy):
the guard `duration_ms` in `if key == "out_time_us" and duration_ms:`. -/
def truthyQ : Option ℚ → Bool
  | none => false
  | some q => q != 0

/-- `duration_ms = duration * 1000 if duration else None` (converter.py line
148): a probed duration of `None` or `0.0` gives `None`. -/
def computeDurationMs : Option ℚ → Option ℚ
  | none => none
  | some d => if d != 0 then some (d * 1000) else none

/-- `"=" in line` after `line.strip()`. -/
def lineHasEq (rawLine : String) : Bool :=
  (pyStrip rawLine.data).contains '='

/-- `key` of `key, value = line.split("=", 1)` after `line.strip()`. -/
def lineKey (rawLine : String) : String :=
  String.mk ((pyStrip rawLine.data).takeWhile (fun c => c != '='))

/-- `value` of `key, value = line.split("=", 1)` after `line.strip()`. -/
def lineValue (rawLine : String) : String :=
  String.mk (((pyStrip rawLine.data).dropWhile (fun c => c != '=')).drop 1)

/-- One iteration of the progress-parsing body of `convert_audio_to_video`
(converter.py lines 212–242): the progress value handed to
`progress_callback` by this line, if any. -/
def parseProgressLine (duration_ms : Option ℚ) (rawLine : String) : Option ℚ :=
  if lineHasEq rawLine then
    let key := lineKey rawLine
    let value := lineValue rawLine
    if key = "out_time_us" && truthyQ duration_ms then
      match parseInt value, duration_ms with
      | some n, some dms => some (min (((n : ℚ) / 1000) / dms) 1)
      | _, _ => none
    else if key = "out_time" && truthyQ duration_ms then
      match splitOnChar ':' value.data with
      | [p0, p1, p2] =>
        match parseInt (String.mk p0), parseInt (String.mk p1),
            parseFloat (String.mk p2), duration_ms with
        | some h, some m, some s, some dms =>
            some (min ((((h : ℚ) * 3600 + (m : ℚ) * 60 + s) * 1000) / dms) 1)
        | _, _, _, _ => none
      | _ => none
    else if key = "progress" && value = "end" then some 1
    else none
  else none

/-- A Python exception raised while creating the output directory or launching
the subprocess: `subprocess.SubprocessError` or any other `Exception`, with
its `str(e)` message. -/
structure PyExc where
  isSubprocessError : Bool
  msg : String
deriving DecidableEq

/-- Observable side effects of `convert_audio_to_video` on the process and the
file system, in order of occurrence. -/
inductive ProcAction where
  | launch
  | terminate
  | waitKill (timeoutSecs : Nat)
  | kill
  | tryUnlink
  | waitNatural
  | readStderr
deriving DecidableEq

/-- Environment of one `convert_audio_to_video` call: everything the outside
world (file system, ffmpeg process) contributes to the run. -/
structure ConvertEnv where
  /-- `get_ffmpeg_path().exists()` -/
  ffmpeg_exists : Bool
  /-- the path `get_ffmpeg_path()` returns (for the error message) -/
  ffmpeg_path : String
  /-- `audio_path.exists()` -/
  audio_exists : Bool
  audio_path : String
  /-- `cover_image_path.exists()` -/
  cover_exists : Bool
  cover_path : String
  output_path : String
  /-- result of `get_audio_duration(audio_path)` in seconds -/
  probed_duration : Option ℚ
  /-- exception raised by `mkdir`/`Popen`, if any -/
  exc : Option PyExc
  /-- successive non-empty `process.stdout.readline()` results until EOF -/
  lines : List String
  /-- `process.wait()` after natural exit -/
  exit_code : Int
  /-- `process.stderr.read()` -/
  stderr_output : String
  /-- `output_path.exists()` after natural exit -/
  output_exists_end : Bool
  /-- `output_path.exists()` at the cancellation cleanup point -/
  output_exists_cancel : Bool
  /-- `process.wait(timeout=5)` raises `TimeoutExpired` after `terminate()` -/
  terminate_times_out : Bool
  /-- `output_path.unlink()` raises `OSError` -/
  unlink_raises : Bool
deriving DecidableEq

/-- Result of the `while True` read loop of `convert_audio_to_video`
(converter.py lines 187–242). -/
structure LoopOut where
  cancelled : Bool
  emitted : List ℚ
  nextPoll : Nat
deriving DecidableEq

/-- The `while True` loop: at iteration `i` the cancellation flag is polled
(`if cancel_check and cancel_check():`) before the next `readline`; a poll
returning `true` leaves the loop on the cancellation path, exhausting the
stream leaves it on the natural-exit path.  `emitted` is the list of values
passed to `progress_callback`, `nextPoll` the number of polls performed. -/
def convertLoop (cancel : Nat → Bool) (dms : Option ℚ) :
    Nat → List String → LoopOut
  | i, ls =>
    if cancel i then { cancelled := true, emitted := [], nextPoll := i + 1 }
    else
      match ls with
      | [] => { cancelled := false, emitted := [], nextPoll := i + 1 }
      | l :: rest =>
        let r := convertLoop cancel dms (i + 1) rest
        { r with emitted := (parseProgressLine dms l).toList ++ r.emitted }

/-- Full observable outcome of one `convert_audio_to_video` call. -/
structure ConvertOutcome where
  result : ConversionResult
  /-- values handed to `progress_callback`, in order -/
  emitted : List ℚ
  /-- process/file-system side effects, in order -/
  acts : List ProcAction
  /-- number of `cancel_check()` polls performed -/
  nextPoll : Nat
  /-- whether the cancellation path was taken -/
  cancelled : Bool
  /-- whether the output file exists when the call returns -/
  outputExistsAfter : Bool
deriving DecidableEq

/-- `converter.convert_audio_to_video` (converter.py lines 98–276) as a
function of its environment and the polled cancellation flag. -/
def convert_audio_to_video (env : ConvertEnv) (cancel : Nat → Bool) :
    ConvertOutcome :=
  if !env.ffmpeg_exists then
    { result := { success := false, output_path := none,
                  error_message := some ("FFmpeg não encontrado em: " ++ env.ffmpeg_path) },
      emitted := [], acts := [], nextPoll := 0, cancelled := false,
      outputExistsAfter := false }
  else if !env.audio_exists then
    { result := { success := false, output_path := none,
                  error_message := some ("Arquivo de áudio não encontrado: " ++ env.audio_path) },
      emitted := [], acts := [], nextPoll := 0, cancelled := false,
      outputExistsAfter := false }
  else if !env.cover_exists then
    { result := { success := false, output_path := none,
                  error_message := some ("Imagem de capa não encontrada: " ++ env.cover_path) },
      emitted := [], acts := [], nextPoll := 0, cancelled := false,
      outputExistsAfter := false }
  else
    let dms := computeDurationMs env.probed_duration
    match env.exc with
    | some e =>
      { result := { success := false, output_path := none,
                    error_message := some
                      (if e.isSubprocessError then "Erro ao executar FFmpeg: " ++ e.msg
                       else "Erro inesperado: " ++ e.msg) },
        emitted := [], acts := [], nextPoll := 0, cancelled := false,
        outputExistsAfter := false }
    | none =>
      let L := convertLoop cancel dms 0 env.lines
      if L.cancelled then
        { result := { success := false, output_path := none,
                      error_message := some "Conversão cancelada pelo usuário" },
          emitted := L.emitted,
          acts := [.launch, .terminate, .waitKill 5]
                  ++ (if env.terminate_times_out then [.kill] else [])
                  ++ (if env.output_exists_cancel then [.tryUnlink] else []),
          nextPoll := L.nextPoll, cancelled := true,
          outputExistsAfter := env.output_exists_cancel && env.unlink_raises }
      else if env.exit_code ≠ 0 then
        { result := { success := false, output_path := none,
                      error_message := some
                        ("FFmpeg retornou código de erro " ++ toString env.exit_code
                          ++ ":\n" ++ String.mk (env.stderr_output.data.drop
                                (env.stderr_output.data.length - 500))) },
          emitted := L.emitted, acts := [.launch, .waitNatural, .readStderr],
          nextPoll := L.nextPoll, cancelled := false,
          outputExistsAfter := env.output_exists_end }
      else if !env.output_exists_end then
        { result := { success := false, output_path := none,
                      error_message := some "O arquivo de saída não foi criado" },
          emitted := L.emitted, acts := [.launch, .waitNatural, .readStderr],
          nextPoll := L.nextPoll, cancelled := false,
          outputExistsAfter := env.output_exists_end }
      else
        { result := { success := true, output_path := some env.output_path,
                      error_message := none },
          emitted := L.emitted, acts := [.launch, .waitNatural, .readStderr],
          nextPoll := L.nextPoll, cancelled := false,
          outputExistsAfter := env.output_exists_end }

/-- Decimal digit characters of `n`, most significant first; the fuel is any
bound on `n`, see `natStrGo_digitsVal`. -/
def natStrGo : Nat → Nat → List Char
  | 0, _ => []
  | fuel + 1, n =>
    if n = 0 then []
    else natStrGo fuel (n / 10) ++ [Char.ofNat (48 + n % 10)]

/-- Decimal rendering of a counter value, Python `str(counter)` in the
`f"{base_name} ({counter}){extension}"` interpolation of
`utils.get_unique_output_path`. -/
def natStr (n : Nat) : String :=
  if n = 0 then "0" else String.mk (natStrGo n n)

/-- `output_folder / name` (pathlib `/` operator, POSIX rendering). -/
def pathJoin (folder name : String) : String := folder ++ "/" ++ name

/-- The candidate file name `f"{base_name} ({counter}){extension}"`. -/
def numberedName (base ext : String) (k : Nat) : String :=
  base ++ " (" ++ natStr k ++ ")" ++ ext

/-- The `while True` counter loop of `utils.get_unique_output_path` (lines
134–139).  The Python loop is unbounded; here it carries fuel, set by the
caller to more than the number of existing paths, which the injectivity of
`numberedName` proves sufficient (see `findNumbered_spec`). -/
def findNumbered (fs : List String) (folder base ext : String) :
    Nat → Nat → String
  | 0, k => pathJoin folder (numberedName base ext k)
  | fuel + 1, k =>
    let p := pathJoin folder (numberedName base ext k)
    if p ∈ fs then findNumbered fs folder base ext fuel (k + 1) else p

/-- `utils.get_unique_output_path` (utils.py lines 110–139), with the file
system `fs` (the set of paths for which `.exists()` is true) passed
explicitly. -/
def get_unique_output_path (fs : List String) (output_folder base_name₀ : String)
    (extension₀ : String) : String :=
  let base_name := String.mk (pyStrip base_name₀.data)
  let extension :=
    match extension₀.data with
    | '.' :: _ => extension₀
    | _ => "." ++ extension₀
  let first := pathJoin output_folder (base_name ++ extension)
  if first ∈ fs then findNumbered fs output_folder base_name extension (fs.length + 1) 1
  else first

/-- Status constants of app.py (lines 29–33). -/
def STATUS_QUEUED : String := "Na fila"

def STATUS_CONVERTING : String := "Convertendo"

def STATUS_COMPLETED : String := "Concluído"

def STATUS_ERROR : String := "Erro"

def STATUS_CANCELLED : String := "Cancelado"

/-- One `(row, audio_path, cover_path, output_path)` tuple of
`ConversionWorker.items`, with the environment its conversion will see. -/
structure ConvItem where
  row : Nat
  env : ConvertEnv
deriving DecidableEq

/-- What happened to one item during `ConversionWorker.run`: skipped by the
top-of-loop cancellation check, or converted with outcome `oc` and the value
`postCancelled` of `self.cancelled` at the check following the conversion. -/
inductive ItemOutcome where
  | skipped
  | ran (oc : ConvertOutcome) (postCancelled : Bool)
deriving DecidableEq

/-- `ConversionWorker.run` (app.py lines 70–104) as a fold over the item list.
`flag p` is the value of the shared `self.cancelled` at the p-th read; reads
happen at the top of each item's loop iteration, at each `cancel_check()`
poll inside `convert_audio_to_video`, and at the `if self.cancelled:` check
after the conversion returns. -/
def runWorker (flag : Nat → Bool) : Nat → List ConvItem → List (ConvItem × ItemOutcome)
  | _, [] => []
  | p, it :: rest =>
    if flag p then (it, .skipped) :: runWorker flag (p + 1) rest
    else
      let oc := convert_audio_to_video it.env (fun n => flag (p + 1 + n))
      (it, .ran oc (flag (p + 1 + oc.nextPoll))) ::
        runWorker flag (p + 1 + oc.nextPoll + 1) rest

/-- Qt signals emitted by `ConversionWorker`. -/
inductive WorkerEvent where
  | statusUpdated (row : Nat) (status : String)
  | progressUpdated (row : Nat) (fraction : ℚ)
  | conversionCompleted (row : Nat) (success : Bool) (outPath : String) (errMsg : String)
  | allCompleted
deriving DecidableEq

/-- Python `str(result.output_path)` for `Optional[Path]`. -/
def pathString : Option String → String
  | some s => s
  | none => "None"

/-- Python `result.error_message or "Erro desconhecido"`. -/
def orUnknown : Option String → String
  | none => "Erro desconhecido"
  | some s => if s = "" then "Erro desconhecido" else s

/-- The signals `ConversionWorker.run` emits for one item (app.py lines
72–102), given its outcome. -/
def itemEvents (it : ConvItem) : ItemOutcome → List WorkerEvent
  | .skipped => [.statusUpdated it.row STATUS_CANCELLED]
  | .ran oc post =>
    [.statusUpdated it.row STATUS_CONVERTING]
      ++ oc.emitted.map (fun q => .progressUpdated it.row q)
      ++ (if post then
            [.statusUpdated it.row STATUS_CANCELLED,
             .conversionCompleted it.row false "" "Conversão cancelada"]
          else if oc.result.success then
            [.statusUpdated it.row STATUS_COMPLETED,
             .conversionCompleted it.row true (pathString oc.result.output_path) ""]
          else
            [.statusUpdated it.row STATUS_ERROR,
             .conversionCompleted it.row false "" (orUnknown oc.result.error_message)])

/-- The full signal trace of one `ConversionWorker.run` call, ending with the
`all_completed` signal (app.py line 104). -/
def workerEvents (flag : Nat → Bool) (items : List ConvItem) : List WorkerEvent :=
  ((runWorker flag 0 items).flatMap (fun pr => itemEvents pr.1 pr.2)) ++ [.allCompleted]

/-- The output-path assignment loop of `MainWindow.start_conversion` (app.py
lines 499–513): each queued item's path is computed with
`get_unique_output_path` against the file system as it is at queue-start
time; no call creates a file, so `fs` is the same for every item. -/
def assignPaths (fs : List String) (folder : String) (stems : List String) :
    List String :=
  stems.map (fun stem => get_unique_output_path fs folder stem ".mpg")

/-! ## Basic lemmas about the read loop -/

theorem computeDurationMs_ne_zero {dur : Option ℚ} {d : ℚ}
    (h : computeDurationMs dur = some d) : d ≠ 0 := by
  match dur with
  | none => simp [computeDurationMs] at h
  | some q =>
    by_cases hq : q = 0
    · simp [computeDurationMs, hq] at h
    · simp [computeDurationMs, hq] at h
      intro hd
      exact hq (by
        have : q * 1000 = 0 := by rw [h, hd]
        exact (mul_eq_zero.mp this).resolve_right (by norm_num))

theorem truthyQ_computeDurationMs (dur : Option ℚ) :
    truthyQ (computeDurationMs dur) = (computeDurationMs dur).isSome := by
  match h : computeDurationMs dur with
  | none => simp [truthyQ]
  | some d =>
    have := computeDurationMs_ne_zero h
    simp [truthyQ, this]

theorem convertLoop_nocancel (cancel : Nat → Bool) (dms : Option ℚ) :
    ∀ (ls : List String) (i : Nat), (∀ m, cancel (i + m) = false) →
      convertLoop cancel dms i ls =
        { cancelled := false, emitted := ls.filterMap (parseProgressLine dms),
          nextPoll := i + ls.length + 1 }
  | [], i, h => by
    have h0 : cancel i = false := by simpa using h 0
    simp [convertLoop, h0]
  | l :: rest, i, h => by
    have h0 : cancel i = false := by simpa using h 0
    have ih := convertLoop_nocancel cancel dms rest (i + 1) (fun m => by
      have hm := h (1 + m)
      rwa [show i + (1 + m) = i + 1 + m by omega] at hm)
    cases hpl : parseProgressLine dms l <;>
      simp [convertLoop, h0, ih, hpl, List.filterMap_cons] <;> omega

theorem convertLoop_cancel (cancel : Nat → Bool) (dms : Option ℚ) :
    ∀ (ls : List String) (i j : Nat), cancel (i + j) = true →
      (∀ m, m < j → cancel (i + m) = false) → j ≤ ls.length →
      convertLoop cancel dms i ls =
        { cancelled := true,
          emitted := (ls.take j).filterMap (parseProgressLine dms),
          nextPoll := i + j + 1 }
  | ls, i, 0, hj, _, _ => by
    have h0 : cancel i = true := by simpa using hj
    cases ls <;> simp [convertLoop, h0]
  | [], i, j + 1, hj, hmin, hle => by simp at hle
  | l :: rest, i, j + 1, hj, hmin, hle => by
    have h0 : cancel i = false := by simpa using hmin 0 (by omega)
    have ih := convertLoop_cancel cancel dms rest (i + 1) j
      (by rwa [show i + 1 + j = i + (j + 1) by omega])
      (fun m hm => by
        have := hmin (1 + m) (by omega)
        rwa [show i + (1 + m) = i + 1 + m by omega] at this)
      (by simp at hle; omega)
    cases hpl : parseProgressLine dms l <;>
      simp [convertLoop, h0, ih, hpl, List.filterMap_cons] <;> omega

theorem convertLoop_not_cancelled_emitted (cancel : Nat → Bool) (dms : Option ℚ) :
    ∀ (ls : List String) (i : Nat),
      (convertLoop cancel dms i ls).cancelled = false →
      (convertLoop cancel dms i ls).emitted = ls.filterMap (parseProgressLine dms)
  | [], i, h => by
    by_cases h0 : cancel i <;> simp [convertLoop, h0] at h ⊢
  | l :: rest, i, h => by
    by_cases h0 : cancel i
    · simp [convertLoop, h0] at h
    · have ih := convertLoop_not_cancelled_emitted cancel dms rest (i + 1)
      simp [convertLoop, h0] at h ⊢
      cases hpl : parseProgressLine dms l <;>
        simp [hpl, List.filterMap_cons, ih h]

theorem convertLoop_emitted_take (cancel : Nat → Bool) (dms : Option ℚ) :
    ∀ (ls : List String) (i : Nat), ∃ m,
      (convertLoop cancel dms i ls).emitted =
        (ls.take m).filterMap (parseProgressLine dms)
  | [], i => ⟨0, by by_cases h0 : cancel i <;> simp [convertLoop, h0]⟩
  | l :: rest, i => by
    by_cases h0 : cancel i
    · exact ⟨0, by simp [convertLoop, h0]⟩
    · obtain ⟨m, hm⟩ := convertLoop_emitted_take cancel dms rest (i + 1)
      refine ⟨m + 1, ?_⟩
      cases hpl : parseProgressLine dms l <;>
        simp [convertLoop, h0, hm, hpl, List.filterMap_cons]

theorem convertLoop_cancelled_poll (cancel : Nat → Bool) (dms : Option ℚ) :
    ∀ (ls : List String) (i : Nat),
      (convertLoop cancel dms i ls).cancelled = true →
      ∃ m, i ≤ m ∧ m < (convertLoop cancel dms i ls).nextPoll ∧ cancel m = true
  | [], i, h => by
    by_cases h0 : cancel i
    · exact ⟨i, le_refl i, by simp [convertLoop, h0], h0⟩
    · simp [convertLoop, h0] at h
  | l :: rest, i, h => by
    by_cases h0 : cancel i
    · exact ⟨i, le_refl i, by simp [convertLoop, h0], h0⟩
    · have hrec : (convertLoop cancel dms (i + 1) rest).cancelled = true := by
        simpa [convertLoop, h0] using h
      obtain ⟨m, h1, h2, h3⟩ := convertLoop_cancelled_poll cancel dms rest (i + 1) hrec
      exact ⟨m, by omega, by simpa [convertLoop, h0] using h2, h3⟩

/-! ## Natural-exit outcome classification and precondition checks -/

/-- **C1**  When the subprocess exits naturally (no exception at launch, the
cancellation flag never fires): a non-zero exit code yields `success = false`
with an error message made of the exit code and the last 500 characters of
stderr; a zero exit code with the output file absent yields `success = false`
with the distinct "output not created" message; a zero exit code with the
output present yields `success = true` carrying the output path. -/
theorem convert_natural_exit_classification (env : ConvertEnv) (cancel : Nat → Bool)
    (hf : env.ffmpeg_exists = true) (ha : env.audio_exists = true)
    (hc : env.cover_exists = true) (hx : env.exc = none)
    (hnc : ∀ i, cancel i = false) :
    (env.exit_code ≠ 0 →
      (convert_audio_to_video env cancel).result =
        { success := false, output_path := none,
          error_message := some ("FFmpeg retornou código de erro "
            ++ toString env.exit_code ++ ":\n"
            ++ String.mk (env.stderr_output.data.drop
                 (env.stderr_output.data.length - 500))) })
    ∧ (env.exit_code = 0 → env.output_exists_end = false →
      (convert_audio_to_video env cancel).result =
        { success := false, output_path := none,
          error_message := some "O arquivo de saída não foi criado" })
    ∧ (env.exit_code = 0 → env.output_exists_end = true →
      (convert_audio_to_video env cancel).result =
        { success := true, output_path := some env.output_path,
          error_message := none }) := by
  have hloop := convertLoop_nocancel cancel (computeDurationMs env.probed_duration)
    env.lines 0 (fun m => by simpa using hnc (0 + m))
  refine ⟨fun hrc => ?_, fun hrc hout => ?_, fun hrc hout => ?_⟩
  · simp [convert_audio_to_video, hf, ha, hc, hx, hloop, hrc]
  · simp [convert_audio_to_video, hf, ha, hc, hx, hloop, hrc, hout]
  · simp [convert_audio_to_video, hf, ha, hc, hx, hloop, hrc, hout]

/-- **C7**  If the encoder tool, the audio input, or the cover image is
missing, `convert_audio_to_video` returns immediately with `success = false`
and a message specific to the missing precondition; nothing else happens: no
progress value is emitted and no process action (in particular no launch)
takes place. -/
theorem convert_missing_preconditions (env : ConvertEnv) (cancel : Nat → Bool) :
    (env.ffmpeg_exists = false →
      convert_audio_to_video env cancel =
        { result := { success := false, output_path := none,
                      error_message := some ("FFmpeg não encontrado em: "
                        ++ env.ffmpeg_path) },
          emitted := [], acts := [], nextPoll := 0, cancelled := false,
          outputExistsAfter := false })
    ∧ (env.ffmpeg_exists = true → env.audio_exists = false →
      convert_audio_to_video env cancel =
        { result := { success := false, output_path := none,
                      error_message := some ("Arquivo de áudio não encontrado: "
                        ++ env.audio_path) },
          emitted := [], acts := [], nextPoll := 0, cancelled := false,
          outputExistsAfter := false })
    ∧ (env.ffmpeg_exists = true → env.audio_exists = true → env.cover_exists = false →
      convert_audio_to_video env cancel =
        { result := { success := false, output_path := none,
                      error_message := some ("Imagem de capa não encontrada: "
                        ++ env.cover_path) },
          emitted := [], acts := [], nextPoll := 0, cancelled := false,
          outputExistsAfter := false })
    ∧ (env.ffmpeg_exists = false ∨ env.audio_exists = false ∨ env.cover_exists = false →
      ProcAction.launch ∉ (convert_audio_to_video env cancel).acts) := by
  refine ⟨fun h1 => ?_, fun h1 h2 => ?_, fun h1 h2 h3 => ?_, fun h => ?_⟩
  · simp [convert_audio_to_video, h1]
  · simp [convert_audio_to_video, h1, h2]
  · simp [convert_audio_to_video, h1, h2, h3]
  · rcases h with h1 | h2 | h3
    · simp [convert_audio_to_video, h1]
    · by_cases h1 : env.ffmpeg_exists <;> simp [convert_audio_to_video, h1, h2]
    · by_cases h1 : env.ffmpeg_exists <;>
        by_cases h2 : env.audio_exists <;>
          simp [convert_audio_to_video, h1, h2, h3]

/-- A concrete environment for witnesses: all preconditions hold, the process
fails with exit code 3. -/
def sampleEnv : ConvertEnv :=
  { ffmpeg_exists := true, ffmpeg_path := "app/bin/ffmpeg",
    audio_exists := true, audio_path := "song.mp3",
    cover_exists := true, cover_path := "cover.jpg",
    output_path := "out/song.mpg", probed_duration := some 10, exc := none,
    lines := ["frame=1", "out_time_us=5000000", "progress=end"],
    exit_code := 3, stderr_output := "boom", output_exists_end := false,
    output_exists_cancel := true, terminate_times_out := false,
    unlink_raises := false }

/-- Witness for `convert_natural_exit_classification` at a concrete
environment with exit code 3. -/
theorem convert_natural_exit_classification_witness :
    (convert_audio_to_video sampleEnv (fun _ => false)).result =
      { success := false, output_path := none,
        error_message := some "FFmpeg retornou código de erro 3:\nboom" } := by
  have h := (convert_natural_exit_classification sampleEnv (fun _ => false)
    rfl rfl rfl rfl (fun _ => rfl)).1 (by decide)
  rw [h]
  with_unfolding_all rfl

/-- `sampleEnv` with the encoder tool missing. -/
def sampleEnvNoTool : ConvertEnv := { sampleEnv with ffmpeg_exists := false }

/-- Witness for `convert_missing_preconditions` at a concrete environment
with the encoder missing. -/
theorem convert_missing_preconditions_witness :
    (convert_audio_to_video sampleEnvNoTool (fun _ => false)).result =
      { success := false, output_path := none,
        error_message := some "FFmpeg não encontrado em: app/bin/ffmpeg" }
    ∧ ProcAction.launch ∉ (convert_audio_to_video sampleEnvNoTool (fun _ => false)).acts := by
  constructor
  · have h := (convert_missing_preconditions sampleEnvNoTool (fun _ => false)).1 rfl
    rw [h]
    with_unfolding_all rfl
  · exact (convert_missing_preconditions sampleEnvNoTool (fun _ => false)).2.2.2 (Or.inl rfl)

/-! ## Cancellation behaviour of the engine -/

/-- **C3**  If the polled cancellation flag first returns true at polling
point `j` (reached before the stream is exhausted), the engine returns the
cancelled-flavoured failure result; its process actions are exactly:
graceful `terminate`, a bounded wait of 5 seconds, `kill` exactly when the
wait timed out, and a deletion attempt on the output file exactly when it
exists — with the result unchanged by a failing deletion (it does not appear
in the result); it does not wait for natural process exit; and because the
flag is checked before each progress-line read, the values emitted are
exactly those of the first `j` lines. -/
theorem convert_cancellation_behaviour (env : ConvertEnv) (cancel : Nat → Bool)
    (j : Nat) (hf : env.ffmpeg_exists = true) (ha : env.audio_exists = true)
    (hc : env.cover_exists = true) (hx : env.exc = none)
    (hj : cancel j = true) (hmin : ∀ i, i < j → cancel i = false)
    (hjle : j ≤ env.lines.length) :
    (convert_audio_to_video env cancel).result =
      { success := false, output_path := none,
        error_message := some "Conversão cancelada pelo usuário" }
    ∧ (convert_audio_to_video env cancel).cancelled = true
    ∧ (convert_audio_to_video env cancel).acts =
        [ProcAction.launch, ProcAction.terminate, ProcAction.waitKill 5]
          ++ (if env.terminate_times_out then [ProcAction.kill] else [])
          ++ (if env.output_exists_cancel then [ProcAction.tryUnlink] else [])
    ∧ ProcAction.waitNatural ∉ (convert_audio_to_video env cancel).acts
    ∧ (ProcAction.kill ∈ (convert_audio_to_video env cancel).acts ↔
        env.terminate_times_out = true)
    ∧ (ProcAction.tryUnlink ∈ (convert_audio_to_video env cancel).acts ↔
        env.output_exists_cancel = true)
    ∧ (convert_audio_to_video env cancel).emitted =
        (env.lines.take j).filterMap
          (parseProgressLine (computeDurationMs env.probed_duration))
    ∧ (convert_audio_to_video env cancel).outputExistsAfter =
        (env.output_exists_cancel && env.unlink_raises) := by
  have hloop := convertLoop_cancel cancel (computeDurationMs env.probed_duration)
    env.lines 0 j (by simpa using hj) (fun m hm => by simpa using hmin m hm) hjle
  by_cases htt : env.terminate_times_out <;>
    by_cases hoc : env.output_exists_cancel <;>
      simp [convert_audio_to_video, hf, ha, hc, hx, hloop, htt, hoc]

/-- `sampleEnv` with a successful process (used for cancellation and
queue-runner witnesses). -/
def sampleEnvOk : ConvertEnv :=
  { sampleEnv with exit_code := 0, output_exists_end := true }

/-- Witness for `convert_cancellation_behaviour`: the flag fires at the
second polling point, after one line was read. -/
theorem convert_cancellation_behaviour_witness :
    (convert_audio_to_video sampleEnvOk (fun n => decide (1 ≤ n))).result =
      { success := false, output_path := none,
        error_message := some "Conversão cancelada pelo usuário" }
    ∧ (convert_audio_to_video sampleEnvOk (fun n => decide (1 ≤ n))).acts =
        [ProcAction.launch, ProcAction.terminate, ProcAction.waitKill 5,
         ProcAction.tryUnlink]
    ∧ (convert_audio_to_video sampleEnvOk (fun n => decide (1 ≤ n))).emitted = [] := by
  have h := convert_cancellation_behaviour sampleEnvOk (fun n => decide (1 ≤ n)) 1
    rfl rfl rfl rfl (by decide)
    (fun i hi => by
      have hz : i = 0 := by omega
      subst hz; rfl)
    (by decide)
  refine ⟨h.1, ?_, ?_⟩
  · rw [h.2.2.1]; with_unfolding_all rfl
  · rw [h.2.2.2.2.2.2.1]; with_unfolding_all rfl

/-! ## Inversion lemmas for the engine outcome -/

theorem convert_cancelled_inv (env : ConvertEnv) (cancel : Nat → Bool)
    (h : (convert_audio_to_video env cancel).cancelled = true) :
    (convert_audio_to_video env cancel).result =
      { success := false, output_path := none,
        error_message := some "Conversão cancelada pelo usuário" }
    ∧ (convert_audio_to_video env cancel).outputExistsAfter =
        (env.output_exists_cancel && env.unlink_raises)
    ∧ ∃ m, m < (convert_audio_to_video env cancel).nextPoll ∧ cancel m = true := by
  by_cases h1 : env.ffmpeg_exists
  · by_cases h2 : env.audio_exists
    · by_cases h3 : env.cover_exists
      · cases hexc : env.exc with
        | some e => simp [convert_audio_to_video, h1, h2, h3, hexc] at h
        | none =>
          by_cases hL : (convertLoop cancel (computeDurationMs env.probed_duration)
              0 env.lines).cancelled
          · obtain ⟨m, _, hm2, hm3⟩ :=
              convertLoop_cancelled_poll cancel _ env.lines 0 hL
            refine ⟨?_, ?_, m, ?_, hm3⟩ <;>
              simp [convert_audio_to_video, h1, h2, h3, hexc, hL, hm2]
          · exfalso
            simp [convert_audio_to_video, h1, h2, h3, hexc, hL] at h
            split_ifs at h
      · simp [convert_audio_to_video, h1, h2, h3] at h
    · simp [convert_audio_to_video, h1, h2] at h
  · simp [convert_audio_to_video, h1] at h

theorem convert_success_emitted (env : ConvertEnv) (cancel : Nat → Bool)
    (h : (convert_audio_to_video env cancel).result.success = true) :
    (convert_audio_to_video env cancel).emitted =
      env.lines.filterMap (parseProgressLine (computeDurationMs env.probed_duration)) := by
  by_cases h1 : env.ffmpeg_exists
  · by_cases h2 : env.audio_exists
    · by_cases h3 : env.cover_exists
      · cases hexc : env.exc with
        | some e => simp [convert_audio_to_video, h1, h2, h3, hexc] at h
        | none =>
          by_cases hL : (convertLoop cancel (computeDurationMs env.probed_duration)
              0 env.lines).cancelled
          · simp [convert_audio_to_video, h1, h2, h3, hexc, hL] at h
          · have hem := convertLoop_not_cancelled_emitted cancel
              (computeDurationMs env.probed_duration) env.lines 0 (by simpa using hL)
            simp [convert_audio_to_video, h1, h2, h3, hexc, hL] at h ⊢
            split_ifs <;> simpa using hem
      · simp [convert_audio_to_video, h1, h2, h3] at h
    · simp [convert_audio_to_video, h1, h2] at h
  · simp [convert_audio_to_video, h1] at h

/-! ## The queue runner under cancellation -/

theorem runWorker_all_skipped (flag : Nat → Bool)
    (hmono : ∀ i j, i ≤ j → flag i = true → flag j = true) :
    ∀ (items : List ConvItem) (p : Nat), flag p = true →
      runWorker flag p items = items.map (fun x => (x, ItemOutcome.skipped))
  | [], p, hp => by simp [runWorker]
  | it :: rest, p, hp => by
    have ih := runWorker_all_skipped flag hmono rest (p + 1)
      (hmono p (p + 1) (by omega) hp)
    simp [runWorker, hp, ih]

theorem convert_success_outputExists (env : ConvertEnv) (cancel : Nat → Bool)
    (h : (convert_audio_to_video env cancel).result.success = true) :
    (convert_audio_to_video env cancel).outputExistsAfter = true := by
  by_cases h1 : env.ffmpeg_exists
  · by_cases h2 : env.audio_exists
    · by_cases h3 : env.cover_exists
      · cases hexc : env.exc with
        | some e => simp [convert_audio_to_video, h1, h2, h3, hexc] at h
        | none =>
          by_cases hL : (convertLoop cancel (computeDurationMs env.probed_duration)
              0 env.lines).cancelled
          · simp [convert_audio_to_video, h1, h2, h3, hexc, hL] at h
          · by_cases hoe : env.output_exists_end
            · simp [convert_audio_to_video, h1, h2, h3, hexc, hL, hoe]
              split_ifs <;> rfl
            · simp [convert_audio_to_video, h1, h2, h3, hexc, hL, hoe] at h
              split_ifs at h
      · simp [convert_audio_to_video, h1, h2, h3] at h
    · simp [convert_audio_to_video, h1, h2] at h
  · simp [convert_audio_to_video, h1] at h

/-- **C4 (amended)**  Once the batch-wide cancellation flag (monotone: never
reset during a run) is set mid-run, a job whose post-conversion check sees
the flag ends with the `Cancelado` status and the cancelled completion
event.  If the conversion itself observed the flag at a polling point, the
result is the cancelled failure and the partially written output file is
gone provided the best-effort deletion did not fail; but if the flag was
set only after the conversion's last polling point, the conversion ran to
completion and — on a successful run — the fully written output file
remains on disk, undeleted.  Every following job of the batch is skipped:
marked `Cancelado` without its conversion (hence without a subprocess) ever
being started. -/
theorem worker_cancellation_mid_batch (flag : Nat → Bool)
    (hmono : ∀ i j, i ≤ j → flag i = true → flag j = true) :
    ∀ (items : List ConvItem) (p k : Nat) (it : ConvItem) (oc : ConvertOutcome),
      (runWorker flag p items)[k]? = some (it, .ran oc true) →
      itemEvents it (.ran oc true) =
          [.statusUpdated it.row STATUS_CONVERTING]
            ++ oc.emitted.map (fun q => .progressUpdated it.row q)
            ++ [.statusUpdated it.row STATUS_CANCELLED,
                .conversionCompleted it.row false "" "Conversão cancelada"]
      ∧ (oc.cancelled = true →
          oc.result = { success := false, output_path := none,
                        error_message := some "Conversão cancelada pelo usuário" }
          ∧ (it.env.unlink_raises = false → oc.outputExistsAfter = false))
      ∧ (oc.result.success = true → oc.outputExistsAfter = true)
      ∧ (runWorker flag p items).drop (k + 1) =
          (items.drop (k + 1)).map (fun x => (x, ItemOutcome.skipped))
      ∧ ∀ x ∈ items.drop (k + 1), itemEvents x ItemOutcome.skipped =
          [WorkerEvent.statusUpdated x.row STATUS_CANCELLED]
  | [], p, k, it, oc, hk => by simp [runWorker] at hk
  | a :: rest, p, k, it, oc, hk => by
    by_cases hp : flag p
    · cases k with
      | zero => simp [runWorker, hp] at hk
      | succ m =>
        have ih := worker_cancellation_mid_batch flag hmono rest (p + 1) m it oc
          (by simpa [runWorker, hp] using hk)
        simpa [runWorker, hp] using ih
    · cases k with
      | zero =>
        rw [show (runWorker flag p (a :: rest))[0]? =
            some (a, .ran (convert_audio_to_video a.env (fun n => flag (p + 1 + n)))
              (flag (p + 1 + (convert_audio_to_video a.env
                (fun n => flag (p + 1 + n))).nextPoll)))
          from by simp [runWorker, hp]] at hk
        injection hk with hk
        have hit : a = it := congrArg Prod.fst hk
        have hk2 : ItemOutcome.ran (convert_audio_to_video a.env (fun n => flag (p + 1 + n)))
            (flag (p + 1 + (convert_audio_to_video a.env
              (fun n => flag (p + 1 + n))).nextPoll)) = ItemOutcome.ran oc true :=
          congrArg Prod.snd hk
        subst hit
        injection hk2 with hoc hpost
        subst hoc
        refine ⟨by simp [itemEvents], fun hcanc => ?_, fun hsucc => ?_, ?_,
          fun x hx => rfl⟩
        · obtain ⟨hres, hafter, _, _, _⟩ :=
            convert_cancelled_inv a.env (fun n => flag (p + 1 + n)) hcanc
          exact ⟨hres, fun hunl => by rw [hafter, hunl, Bool.and_false]⟩
        · exact convert_success_outputExists a.env (fun n => flag (p + 1 + n)) hsucc
        · have hskip := runWorker_all_skipped flag hmono rest
            (p + 1 + (convert_audio_to_video a.env (fun n => flag (p + 1 + n))).nextPoll + 1)
            (hmono (p + 1 + (convert_audio_to_video a.env
                (fun n => flag (p + 1 + n))).nextPoll) _ (by omega) hpost)
          simp only [runWorker, hp, Bool.false_eq_true, if_false, List.drop_succ_cons,
            List.drop_zero]
          exact hskip
      | succ m =>
        have hk' : (runWorker flag
            (p + 1 + (convert_audio_to_video a.env (fun n => flag (p + 1 + n))).nextPoll + 1)
            rest)[m]? = some (it, .ran oc true) := by
          simpa [runWorker, hp] using hk
        have ih := worker_cancellation_mid_batch flag hmono rest _ m it oc hk'
        simpa [runWorker, hp] using ih

/-- The batch-wide flag used in the C4 witness: set from the third read on. -/
def c4flag : Nat → Bool := fun p => decide (2 ≤ p)

/-- Two-item batch used in the C4 witness. -/
def c4items : List ConvItem := [⟨0, sampleEnvOk⟩, ⟨1, sampleEnvOk⟩]

/-- The first item's conversion outcome in the C4 witness. -/
def c4oc : ConvertOutcome :=
  convert_audio_to_video sampleEnvOk (fun n => c4flag (0 + 1 + n))

/-- The flag of the C4 counterexample: set only from the sixth read on —
after the conversion's last polling point, so only the worker's
post-conversion `if self.cancelled` check sees it. -/
def c4raceflag : Nat → Bool := fun p => decide (5 ≤ p)

/-- The conversion outcome of the single job under `c4raceflag`: all four
engine polls (one before each of the three reads, one at stream end) see
`false`, so the conversion runs to successful completion. -/
def c4raceoc : ConvertOutcome :=
  convert_audio_to_video sampleEnvOk (fun n => c4raceflag (0 + 1 + n))

/-- **C4 (counterexample)**  The unconditional "no leftover output file on
disk" is false on the code: when the batch flag is set mid-run but after
the conversion's last polling point, only the post-conversion check
(app.py line 94) sees it.  The single job of this batch ends with the
`Cancelado` status and the cancelled completion event, yet its conversion
succeeded and the fully written output file is still on disk — nothing on
this path deletes it. -/
theorem worker_cancellation_leftover_counterexample :
    runWorker c4raceflag 0 [⟨0, sampleEnvOk⟩] =
      [(⟨0, sampleEnvOk⟩, ItemOutcome.ran c4raceoc true)]
    ∧ c4raceoc.result.success = true
    ∧ c4raceoc.outputExistsAfter = true
    ∧ itemEvents ⟨0, sampleEnvOk⟩ (ItemOutcome.ran c4raceoc true) =
        [.statusUpdated 0 STATUS_CONVERTING,
         .progressUpdated 0 (1 / 2), .progressUpdated 0 1,
         .statusUpdated 0 STATUS_CANCELLED,
         .conversionCompleted 0 false "" "Conversão cancelada"] := by
  refine ⟨?_, ?_, ?_, ?_⟩ <;> with_unfolding_all rfl

/-- Witness for `worker_cancellation_mid_batch`, exercising both ways a job
ends cancelled: under `c4flag` the engine sees the flag mid-conversion
(cancelled result, partial file removed, second job skipped with only a
`Cancelado` status event), while under `c4raceflag` only the post-check of
a successful run sees it and the output file remains. -/
theorem worker_cancellation_mid_batch_witness :
    itemEvents ⟨0, sampleEnvOk⟩ (.ran c4oc true) =
        [.statusUpdated (⟨0, sampleEnvOk⟩ : ConvItem).row STATUS_CONVERTING]
          ++ c4oc.emitted.map
              (fun q => .progressUpdated (⟨0, sampleEnvOk⟩ : ConvItem).row q)
          ++ [.statusUpdated (⟨0, sampleEnvOk⟩ : ConvItem).row STATUS_CANCELLED,
              .conversionCompleted (⟨0, sampleEnvOk⟩ : ConvItem).row false ""
                "Conversão cancelada"]
    ∧ c4oc.result = { success := false, output_path := none,
                      error_message := some "Conversão cancelada pelo usuário" }
    ∧ c4oc.outputExistsAfter = false
    ∧ (runWorker c4flag 0 c4items).drop 1 =
        (c4items.drop 1).map (fun x => (x, ItemOutcome.skipped))
    ∧ (∀ x ∈ c4items.drop 1, itemEvents x ItemOutcome.skipped =
        [WorkerEvent.statusUpdated x.row STATUS_CANCELLED])
    ∧ c4raceoc.outputExistsAfter = true := by
  have h1 := worker_cancellation_mid_batch c4flag
    (fun i j hij hi => by
      simp only [c4flag, decide_eq_true_eq] at hi ⊢
      omega)
    c4items 0 0 ⟨0, sampleEnvOk⟩ c4oc (by with_unfolding_all rfl)
  have h2 := worker_cancellation_mid_batch c4raceflag
    (fun i j hij hi => by
      simp only [c4raceflag, decide_eq_true_eq] at hi ⊢
      omega)
    [⟨0, sampleEnvOk⟩] 0 0 ⟨0, sampleEnvOk⟩ c4raceoc (by with_unfolding_all rfl)
  have hcanc : c4oc.cancelled = true := by with_unfolding_all rfl
  have hsucc : c4raceoc.result.success = true := by with_unfolding_all rfl
  exact ⟨h1.1, (h1.2.1 hcanc).1, (h1.2.1 hcanc).2 rfl, h1.2.2.2.1, h1.2.2.2.2,
    h2.2.2.1 hsucc⟩

/-! ## Per-job results and completion events -/

/-- Is this signal the per-job completion event? -/
def isCompletionEvent : WorkerEvent → Bool
  | .conversionCompleted _ _ _ _ => true
  | _ => false

theorem runWorker_map_fst (flag : Nat → Bool) :
    ∀ (items : List ConvItem) (p : Nat),
      (runWorker flag p items).map Prod.fst = items
  | [], _ => rfl
  | it :: rest, p => by
    by_cases hp : flag p <;>
      simp [runWorker, hp, runWorker_map_fst flag rest]

/-- **C2 (counterexample)**  A batch containing one job, with the
cancellation flag already set before the run starts, produces no completion
event at all: the claim that every job of the batch receives a completion
event is false on the code (skipped jobs only get a `Cancelado` status
event). -/
theorem worker_completion_event_counterexample :
    ([(⟨0, sampleEnvOk⟩ : ConvItem)].length = 1)
    ∧ (workerEvents (fun _ => true) [⟨0, sampleEnvOk⟩]).countP isCompletionEvent = 0 := by
  constructor
  · rfl
  · with_unfolding_all rfl

/-- **C2 (amended)**  The engine never raises: a launch-time exception is
caught and turned into a `success = false` result with a descriptive
message; the queue runner produces exactly one outcome per submitted job, in
order; every job it actually starts gets exactly one completion event; but a
job skipped because the batch cancellation flag was already set gets only
the `Cancelado` status event and no completion event. -/
theorem worker_per_job_results (env : ConvertEnv) (cancel : Nat → Bool)
    (e : PyExc) (flag : Nat → Bool) (items : List ConvItem) (p : Nat)
    (it : ConvItem) (oc : ConvertOutcome) (post : Bool) :
    (env.ffmpeg_exists = true → env.audio_exists = true → env.cover_exists = true →
      env.exc = some e →
      (convert_audio_to_video env cancel).result =
        { success := false, output_path := none,
          error_message := some (if e.isSubprocessError
            then "Erro ao executar FFmpeg: " ++ e.msg
            else "Erro inesperado: " ++ e.msg) })
    ∧ (runWorker flag p items).map Prod.fst = items
    ∧ (itemEvents it (.ran oc post)).countP isCompletionEvent = 1
    ∧ itemEvents it .skipped = [.statusUpdated it.row STATUS_CANCELLED] := by
  refine ⟨fun h1 h2 h3 hexc => ?_, runWorker_map_fst flag items p, ?_, rfl⟩
  · simp [convert_audio_to_video, h1, h2, h3, hexc]
  · have hz : (oc.emitted.map
        (fun q => WorkerEvent.progressUpdated it.row q)).countP isCompletionEvent = 0 := by
      rw [List.countP_eq_zero]
      intro x hx
      obtain ⟨q, _, rfl⟩ := List.mem_map.mp hx
      simp [isCompletionEvent]
    simp only [itemEvents, List.countP_append, hz]
    split_ifs <;> simp [isCompletionEvent, List.countP_cons]

/-- `sampleEnv` with a subprocess-launch exception. -/
def sampleEnvExc : ConvertEnv :=
  { sampleEnv with exc := some ⟨true, "spawn failed"⟩ }

/-- Witness for `worker_per_job_results` at concrete inputs. -/
theorem worker_per_job_results_witness :
    (convert_audio_to_video sampleEnvExc (fun _ => false)).result =
      { success := false, output_path := none,
        error_message := some "Erro ao executar FFmpeg: spawn failed" }
    ∧ (runWorker c4flag 0 c4items).map Prod.fst = c4items
    ∧ (itemEvents ⟨0, sampleEnvOk⟩ (.ran c4oc true)).countP isCompletionEvent = 1
    ∧ itemEvents ⟨1, sampleEnvOk⟩ .skipped =
        [.statusUpdated (⟨1, sampleEnvOk⟩ : ConvItem).row STATUS_CANCELLED] := by
  have h := worker_per_job_results sampleEnvExc (fun _ => false) ⟨true, "spawn failed"⟩
    c4flag c4items 0 ⟨0, sampleEnvOk⟩ c4oc true
  have h2 := worker_per_job_results sampleEnvExc (fun _ => false) ⟨true, "spawn failed"⟩
    c4flag c4items 0 ⟨1, sampleEnvOk⟩ c4oc true
  refine ⟨?_, h.2.1, h.2.2.1, h2.2.2.2⟩
  have := h.1 rfl rfl rfl rfl
  rw [this]
  with_unfolding_all rfl

theorem truthyQ_some_of_ne {d : ℚ} (hd : d ≠ 0) : truthyQ (some d) = true := by
  simp [truthyQ, hd]

/-! ## Abstract progress signals: monotonicity and bounds -/

/-- Abstract content of one progress line: elapsed milliseconds (from
`out_time_us` or `out_time`), the end marker (`progress=end`), or nothing. -/
inductive ProgSignal where
  | elapsed (ms : ℚ)
  | ended
deriving DecidableEq

/-- The signal of a line, independent of duration knowledge (same parsing as
`parseProgressLine`). -/
def lineSignal (rawLine : String) : Option ProgSignal :=
  if lineHasEq rawLine then
    let key := lineKey rawLine
    let value := lineValue rawLine
    if key = "out_time_us" then
      match parseInt value with
      | some n => some (.elapsed ((n : ℚ) / 1000))
      | none => none
    else if key = "out_time" then
      match splitOnChar ':' value.data with
      | [p0, p1, p2] =>
        match parseInt (String.mk p0), parseInt (String.mk p1),
            parseFloat (String.mk p2) with
        | some h, some m, some s =>
            some (.elapsed (((h : ℚ) * 3600 + (m : ℚ) * 60 + s) * 1000))
        | _, _, _ => none
      | _ => none
    else if key = "progress" && value = "end" then some .ended
    else none
  else none

/-- The fraction reported for a signal when the duration (ms) is `d`. -/
def sigFrac (d : ℚ) : ProgSignal → ℚ
  | .elapsed e => min (e / d) 1
  | .ended => 1

/-- Stream well-formedness order: elapsed times may only grow, and nothing
but the end marker may follow the end marker. -/
def sigLE : ProgSignal → ProgSignal → Prop
  | .elapsed a, .elapsed b => a ≤ b
  | .elapsed _, .ended => True
  | .ended, .elapsed _ => False
  | .ended, .ended => True

theorem parseProgressLine_known (d : ℚ) (hd : d ≠ 0) (l : String) :
    parseProgressLine (some d) l = (lineSignal l).map (sigFrac d) := by
  unfold parseProgressLine lineSignal
  by_cases he : lineHasEq l
  · by_cases h1 : lineKey l = "out_time_us"
    · cases hp : parseInt (lineValue l) <;>
        simp [he, h1, hp, truthyQ_some_of_ne hd, sigFrac]
    · by_cases h2 : lineKey l = "out_time"
      · cases hs : splitOnChar ':' (lineValue l).data with
        | nil => simp [he, h1, h2, hs, truthyQ_some_of_ne hd]
        | cons p0 t0 =>
          cases t0 with
          | nil => simp [he, h1, h2, hs, truthyQ_some_of_ne hd]
          | cons p1 t1 =>
            cases t1 with
            | nil => simp [he, h1, h2, hs, truthyQ_some_of_ne hd]
            | cons p2 t2 =>
              cases t2 with
              | cons p3 t3 => simp [he, h1, h2, hs, truthyQ_some_of_ne hd]
              | nil =>
                cases hp0 : parseInt (String.mk p0) <;>
                  cases hp1 : parseInt (String.mk p1) <;>
                    cases hp2 : parseFloat (String.mk p2) <;>
                      simp [he, h1, h2, hs, hp0, hp1, hp2,
                        truthyQ_some_of_ne hd, sigFrac]
      · by_cases h3 : lineKey l = "progress" && lineValue l = "end" <;>
          simp [he, h1, h2, h3, truthyQ_some_of_ne hd, sigFrac]
  · simp [he]

theorem parseProgressLine_unknown (l : String) :
    parseProgressLine none l =
      (lineSignal l).bind
        (fun s => if s = ProgSignal.ended then some (1 : ℚ) else none) := by
  unfold parseProgressLine lineSignal
  by_cases he : lineHasEq l
  · by_cases h1 : lineKey l = "out_time_us"
    · cases hp : parseInt (lineValue l) <;> simp [he, h1, hp, truthyQ]
    · by_cases h2 : lineKey l = "out_time"
      · cases hs : splitOnChar ':' (lineValue l).data with
        | nil => simp [he, h1, h2, hs, truthyQ]
        | cons p0 t0 =>
          cases t0 with
          | nil => simp [he, h1, h2, hs, truthyQ]
          | cons p1 t1 =>
            cases t1 with
            | nil => simp [he, h1, h2, hs, truthyQ]
            | cons p2 t2 =>
              cases t2 with
              | cons p3 t3 => simp [he, h1, h2, hs, truthyQ]
              | nil =>
                cases hp0 : parseInt (String.mk p0) <;>
                  cases hp1 : parseInt (String.mk p1) <;>
                    cases hp2 : parseFloat (String.mk p2) <;>
                      simp [he, h1, h2, hs, hp0, hp1, hp2, truthyQ]
      · by_cases h3 : lineKey l = "progress" && lineValue l = "end" <;>
          simp [he, h1, h2, h3, truthyQ]
  · simp [he]

theorem filterMap_parse_known (d : ℚ) (hd : d ≠ 0) (ls : List String) :
    ls.filterMap (parseProgressLine (some d)) =
      (ls.filterMap lineSignal).map (sigFrac d) := by
  rw [List.map_filterMap]
  have : parseProgressLine (some d) = fun l => (lineSignal l).map (sigFrac d) :=
    funext (parseProgressLine_known d hd)
  rw [this]

theorem filterMap_parse_unknown (ls : List String) :
    ls.filterMap (parseProgressLine none) =
      (ls.filterMap lineSignal).filterMap
        (fun s => if s = ProgSignal.ended then some (1 : ℚ) else none) := by
  rw [List.filterMap_filterMap]
  have : parseProgressLine none = fun l => (lineSignal l).bind
      (fun s => if s = ProgSignal.ended then some (1 : ℚ) else none) :=
    funext parseProgressLine_unknown
  rw [this]

/-! ## Semantics of single progress lines -/

/-- **C5**  Progress callbacks are determined by the stream:
an `out_time_us` line whose value parses as an integer `n`, with the duration
known, reports `min((n/1000)/durationMs, 1.0)`; a `progress=end` line
reports `1.0` unconditionally, whatever the duration knowledge; a malformed
`out_time_us` line or a line with an unrecognized key reports nothing; with
an unknown duration only `1.0` can ever be reported; and the stream content
never changes the run's result (malformed lines never abort the job). -/
theorem progress_line_semantics (dur : Option ℚ) (d : ℚ) (dms : Option ℚ)
    (l₁ l₂ l₃ l₄ l₅ l₆ : String) (n : Int) (q : ℚ)
    (env : ConvertEnv) (cancel : Nat → Bool) (ls' : List String)
    (hd : computeDurationMs dur = some d) :
    (lineHasEq l₁ = true → lineKey l₁ = "out_time_us" →
      parseInt (lineValue l₁) = some n →
      parseProgressLine (computeDurationMs dur) l₁ = some (min (((n : ℚ) / 1000) / d) 1))
    ∧ (lineHasEq l₂ = true → lineKey l₂ = "progress" → lineValue l₂ = "end" →
      parseProgressLine dms l₂ = some 1)
    ∧ (lineKey l₃ = "out_time_us" → parseInt (lineValue l₃) = none →
      parseProgressLine dms l₃ = none)
    ∧ (lineKey l₄ ≠ "out_time_us" → lineKey l₄ ≠ "out_time" → lineKey l₄ ≠ "progress" →
      parseProgressLine dms l₄ = none)
    ∧ (lineKey l₆ = "out_time" → lineSignal l₆ = none →
      parseProgressLine dms l₆ = none)
    ∧ (parseProgressLine none l₅ = some q → q = 1)
    ∧ ((∀ i, cancel i = false) →
      (convert_audio_to_video env cancel).result =
        (convert_audio_to_video { env with lines := ls' } cancel).result) := by
  have hne : d ≠ 0 := computeDurationMs_ne_zero hd
  refine ⟨fun he hk hv => ?_, fun he hk hv => ?_, fun hk hv => ?_,
    fun hk1 hk2 hk3 => ?_, fun hk6 hsig => ?_, fun hq => ?_, fun hnc => ?_⟩
  · rw [hd]
    simp [parseProgressLine, he, hk, hv, truthyQ_some_of_ne hne]
  · simp [parseProgressLine, he, hk, hv]
  · by_cases he : lineHasEq l₃
    · cases hdms : dms with
      | none => simp [parseProgressLine, he, hk, hv, truthyQ]
      | some dv =>
        by_cases hdv : dv = 0
        · simp [parseProgressLine, he, hk, hv, truthyQ, hdv]
        · simp [parseProgressLine, he, hk, hv, truthyQ_some_of_ne hdv]
    · simp [parseProgressLine, he]
  · by_cases he : lineHasEq l₄
    · simp [parseProgressLine, he, hk1, hk2, hk3]
    · simp [parseProgressLine, he]
  · cases hdms2 : dms with
    | none =>
      rw [parseProgressLine_unknown, hsig]
      rfl
    | some dv =>
      by_cases hdv : dv = 0
      · subst hdv
        by_cases he : lineHasEq l₆
        · have hk6p : lineKey l₆ ≠ "progress" := by rw [hk6]; decide
          simp [parseProgressLine, he, truthyQ, hk6p]
        · simp [parseProgressLine, he]
      · rw [parseProgressLine_known dv hdv, hsig]
        rfl
  · revert hq
    simp only [parseProgressLine]
    by_cases he : lineHasEq l₅
    · simp only [he, if_true, truthyQ, Bool.and_false, Bool.false_eq_true, if_false]
      split_ifs with hk
      · intro hq
        exact (Option.some.inj hq).symm
      · intro hq
        simp at hq
    · simp [he]
  · obtain ⟨f, fp, a2, ap, c2, cp, op, pd, ex, ln, ec, so, oe, oc2, tt, ur⟩ := env
    by_cases h1 : f
    · by_cases h2 : a2
      · by_cases h3 : c2
        · cases hexc : ex with
          | some e => simp [convert_audio_to_video, h1, h2, h3, hexc]
          | none =>
            have hl1 := convertLoop_nocancel cancel (computeDurationMs pd) ln 0
              (fun m => by simpa using hnc (0 + m))
            have hl2 := convertLoop_nocancel cancel (computeDurationMs pd) ls' 0
              (fun m => by simpa using hnc (0 + m))
            simp only [convert_audio_to_video, h1, h2, h3, hexc, hl1, hl2]
            split_ifs <;> rfl
        · simp [convert_audio_to_video, h1, h2, h3]
      · simp [convert_audio_to_video, h1, h2]
    · simp [convert_audio_to_video, h1]

/-- Witness for `progress_line_semantics` at concrete lines and a 10-second
duration (durationMs = 10000). -/
theorem progress_line_semantics_witness :
    parseProgressLine (computeDurationMs (some 10)) "out_time_us=5000000" = some (1 / 2)
    ∧ parseProgressLine (some 10000) "progress=end" = some 1
    ∧ parseProgressLine (some 10000) "out_time_us=12a" = none
    ∧ parseProgressLine (some 10000) "frame=99" = none
    ∧ parseProgressLine (some 10000) "out_time=bogus" = none
    ∧ ((1 : ℚ) = 1)
    ∧ (convert_audio_to_video sampleEnv (fun _ => false)).result =
        (convert_audio_to_video { sampleEnv with lines := [] } (fun _ => false)).result := by
  have h := progress_line_semantics (some 10) 10000 (some 10000)
    "out_time_us=5000000" "progress=end" "out_time_us=12a" "frame=99" "progress=end"
    "out_time=bogus" 5000000 1 sampleEnv (fun _ => false) [] (by with_unfolding_all rfl)
  refine ⟨?_, h.2.1 (by decide) (by decide) (by decide),
    h.2.2.1 (by decide) (by decide),
    h.2.2.2.1 (by decide) (by decide) (by decide),
    h.2.2.2.2.1 (by decide) (by decide),
    h.2.2.2.2.2.1 (by with_unfolding_all rfl),
    h.2.2.2.2.2.2 (fun i => rfl)⟩
  rw [h.1 (by decide) (by decide) (by decide)]
  with_unfolding_all rfl

theorem getLastQ_cons {α : Type} (v : α) (L : List α) (b : α)
    (h : L.getLast? = some b) : (v :: L).getLast? = some b := by
  cases L with
  | nil => simp at h
  | cons y t => rw [List.getLast?_cons_cons]; exact h

theorem getLastQ_filterMap {α β : Type} (g : α → Option β) :
    ∀ (l : List α) (a : α) (b : β), l.getLast? = some a → g a = some b →
      (l.filterMap g).getLast? = some b
  | [], a, b, ha, _ => by simp at ha
  | [x], a, b, ha, hb => by
    simp only [List.getLast?_singleton, Option.some.injEq] at ha
    subst ha
    simp [List.filterMap_cons, hb]
  | x :: y :: t, a, b, ha, hb => by
    have ht := getLastQ_filterMap g (y :: t) a b (by
      rw [← List.getLast?_cons_cons (a := x)]; exact ha) hb
    cases hx : g x with
    | none => simpa [List.filterMap_cons, hx] using ht
    | some v =>
      rw [List.filterMap_cons, hx]
      exact getLastQ_cons v _ b ht

theorem chainLE_of_const (c : ℚ) :
    ∀ (l : List ℚ), (∀ x ∈ l, x = c) → List.Chain' (· ≤ ·) l
  | [], _ => List.chain'_nil
  | [_], _ => by simp
  | x :: y :: t, h => by
    rw [List.chain'_cons]
    refine ⟨?_, chainLE_of_const c (y :: t) (fun z hz => h z (List.mem_cons_of_mem x hz))⟩
    rw [h x (by simp), h y (by simp)]

theorem computeDurationMs_pos {dur : Option ℚ} {d : ℚ}
    (h : computeDurationMs dur = some d)
    (hnn : ∀ dq, dur = some dq → 0 ≤ dq) : 0 < d := by
  match dur with
  | none => simp [computeDurationMs] at h
  | some q =>
    have hq : 0 ≤ q := hnn q rfl
    by_cases h0 : q = 0
    · simp [computeDurationMs, h0] at h
    · simp [computeDurationMs, h0] at h
      rw [← h]
      have : 0 < q := lt_of_le_of_ne hq (Ne.symm h0)
      positivity

theorem sigFrac_mono {d : ℚ} (hd : 0 < d) {s t : ProgSignal} (h : sigLE s t) :
    sigFrac d s ≤ sigFrac d t := by
  cases s with
  | elapsed a =>
    cases t with
    | elapsed b =>
      have hab : a ≤ b := h
      exact min_le_min (by gcongr) le_rfl
    | ended => exact min_le_right _ _
  | ended =>
    cases t with
    | elapsed b => exact absurd h (by simp [sigLE])
    | ended => exact le_rfl

theorem sigFrac_bounds {d : ℚ} (hd : 0 < d) {s : ProgSignal}
    (hnn : ∀ e, s = ProgSignal.elapsed e → 0 ≤ e) :
    0 ≤ sigFrac d s ∧ sigFrac d s ≤ 1 := by
  cases s with
  | elapsed e =>
    exact ⟨le_min (div_nonneg (hnn e rfl) hd.le) zero_le_one, min_le_right _ _⟩
  | ended => norm_num [sigFrac]

theorem convert_emitted_take (env : ConvertEnv) (cancel : Nat → Bool) : ∃ m,
    (convert_audio_to_video env cancel).emitted =
      (env.lines.take m).filterMap
        (parseProgressLine (computeDurationMs env.probed_duration)) := by
  by_cases h1 : env.ffmpeg_exists
  · by_cases h2 : env.audio_exists
    · by_cases h3 : env.cover_exists
      · cases hexc : env.exc with
        | some e => exact ⟨0, by simp [convert_audio_to_video, h1, h2, h3, hexc]⟩
        | none =>
          obtain ⟨m, hm⟩ := convertLoop_emitted_take cancel
            (computeDurationMs env.probed_duration) env.lines 0
          refine ⟨m, ?_⟩
          simp only [convert_audio_to_video, h1, h2, h3, hexc, Bool.not_true,
            Bool.false_eq_true, if_false]
          split_ifs <;> exact hm
      · exact ⟨0, by simp [convert_audio_to_video, h1, h2, h3]⟩
    · exact ⟨0, by simp [convert_audio_to_video, h1, h2]⟩
  · exact ⟨0, by simp [convert_audio_to_video, h1]⟩

/-- **C6**  Provided the probed duration is non-negative and the encoder's
progress stream is well-formed (elapsed times non-negative and
non-decreasing, nothing but the end marker after the end marker — which is
how ffmpeg's `-progress` stream behaves), the reported fractions are
monotonically non-decreasing and all lie in `[0, 1]`; and on a successful
run whose stream ends with `progress=end` (as every ffmpeg run that exits
with code 0 does), the last reported fraction is exactly `1.0` — the value
the job carries when it reaches `Concluído`. -/
theorem progress_monotone_bounded (env : ConvertEnv) (cancel : Nat → Bool)
    (hpos : ∀ dq, env.probed_duration = some dq → 0 ≤ dq)
    (hchain : List.Chain' sigLE (env.lines.filterMap lineSignal))
    (hnn : ∀ e, ProgSignal.elapsed e ∈ env.lines.filterMap lineSignal → 0 ≤ e) :
    List.Chain' (· ≤ ·) (convert_audio_to_video env cancel).emitted
    ∧ (∀ x ∈ (convert_audio_to_video env cancel).emitted, 0 ≤ x ∧ x ≤ 1)
    ∧ ((convert_audio_to_video env cancel).result.success = true →
        (env.lines.filterMap lineSignal).getLast? = some ProgSignal.ended →
        (convert_audio_to_video env cancel).emitted.getLast? = some 1) := by
  obtain ⟨m, hm⟩ := convert_emitted_take env cancel
  have hsplit : (env.lines.take m).filterMap lineSignal ++
      (env.lines.drop m).filterMap lineSignal = env.lines.filterMap lineSignal := by
    rw [← List.filterMap_append, List.take_append_drop]
  have hchain' : List.Chain' sigLE ((env.lines.take m).filterMap lineSignal) := by
    rw [← hsplit] at hchain
    exact (List.chain'_append.mp hchain).1
  have hnn' : ∀ e, ProgSignal.elapsed e ∈ (env.lines.take m).filterMap lineSignal →
      0 ≤ e := by
    intro e he
    exact hnn e (by rw [← hsplit]; exact List.mem_append_left _ he)
  cases hd : computeDurationMs env.probed_duration with
  | some d =>
    have hdpos : 0 < d := computeDurationMs_pos hd hpos
    have hemit : (convert_audio_to_video env cancel).emitted =
        ((env.lines.take m).filterMap lineSignal).map (sigFrac d) := by
      rw [hm, hd, filterMap_parse_known d (ne_of_gt hdpos)]
    refine ⟨?_, ?_, ?_⟩
    · rw [hemit, List.chain'_map]
      exact hchain'.imp (fun a b hab => sigFrac_mono hdpos hab)
    · intro x hx
      rw [hemit] at hx
      obtain ⟨s, hs, rfl⟩ := List.mem_map.mp hx
      exact sigFrac_bounds hdpos (fun e hse => hnn' e (hse ▸ hs))
    · intro hsucc hlast
      have hfull := convert_success_emitted env cancel hsucc
      rw [hfull, hd, filterMap_parse_known d (ne_of_gt hdpos),
        ← List.filterMap_eq_map]
      exact getLastQ_filterMap _ _ _ _ hlast rfl
  | none =>
    have hone : ∀ x ∈ (convert_audio_to_video env cancel).emitted, x = 1 := by
      intro x hx
      rw [hm, hd, filterMap_parse_unknown] at hx
      obtain ⟨s, _, hsx⟩ := List.mem_filterMap.mp hx
      by_cases hse : s = ProgSignal.ended
      · rw [hse] at hsx
        simp at hsx
        exact hsx.symm
      · simp [hse] at hsx
    refine ⟨chainLE_of_const 1 _ hone, ?_, ?_⟩
    · intro x hx
      rw [hone x hx]
      norm_num
    · intro hsucc hlast
      have hfull := convert_success_emitted env cancel hsucc
      rw [hfull, hd, filterMap_parse_unknown]
      exact getLastQ_filterMap _ _ _ _ hlast (by simp)

/-- Witness for `progress_monotone_bounded`: a successful run over the
stream `frame=1`, `out_time_us=5000000`, `progress=end` with a 10-second
duration. -/
theorem progress_monotone_bounded_witness :
    List.Chain' (· ≤ ·) (convert_audio_to_video sampleEnvOk (fun _ => false)).emitted
    ∧ (∀ x ∈ (convert_audio_to_video sampleEnvOk (fun _ => false)).emitted,
        0 ≤ x ∧ x ≤ 1)
    ∧ (convert_audio_to_video sampleEnvOk (fun _ => false)).emitted.getLast? =
        some 1 := by
  have hs : sampleEnvOk.lines.filterMap lineSignal =
      [ProgSignal.elapsed 5000, ProgSignal.ended] := by
    with_unfolding_all rfl
  have h := progress_monotone_bounded sampleEnvOk (fun _ => false)
    (fun dq hdq => by
      have h10 : (10 : ℚ) = dq := by simpa [sampleEnvOk, sampleEnv] using hdq
      rw [← h10]
      norm_num)
    (by rw [hs]; simp [List.chain'_cons, sigLE])
    (by
      intro e he
      rw [hs] at he
      simp only [List.mem_cons, List.mem_singleton] at he
      rcases he with he | he | he <;> simp_all)
  exact ⟨h.1, h.2.1, h.2.2 (by with_unfolding_all rfl) (by rw [hs]; rfl)⟩

/-! ## A zero probed duration is treated as unknown -/

/-- **C10**  When the duration probe returns exactly `0.0` seconds, the
falsy-check `if duration else None` makes the milliseconds duration `None`,
so elapsed-time lines (`out_time_us` / `out_time`) produce no callback at
all (in particular the fraction `elapsedMs / durationMs` is never computed,
so no division by zero can occur), any callback that does fire carries
exactly `1.0`, and thus every value such a run emits is `1.0` (the
`progress=end` signal). -/
theorem zero_duration_treated_unknown (env : ConvertEnv) (cancel : Nat → Bool)
    (h : env.probed_duration = some 0) :
    computeDurationMs env.probed_duration = none
    ∧ (∀ l e, lineSignal l = some (ProgSignal.elapsed e) →
        parseProgressLine (computeDurationMs env.probed_duration) l = none)
    ∧ (∀ l q, parseProgressLine (computeDurationMs env.probed_duration) l = some q →
        q = 1)
    ∧ (∀ x ∈ (convert_audio_to_video env cancel).emitted, x = 1) := by
  have hz : computeDurationMs env.probed_duration = none := by
    rw [h]
    simp [computeDurationMs]
  refine ⟨hz, fun l e hl => ?_, fun l q hq => ?_, fun x hx => ?_⟩
  · rw [hz, parseProgressLine_unknown, hl]
    simp
  · rw [hz, parseProgressLine_unknown] at hq
    cases hsig : lineSignal l with
    | none => rw [hsig] at hq; simp at hq
    | some s =>
      rw [hsig] at hq
      by_cases hse : s = ProgSignal.ended
      · rw [hse] at hq
        simp at hq
        exact hq.symm
      · simp [hse] at hq
  · obtain ⟨m, hm⟩ := convert_emitted_take env cancel
    rw [hm, hz, filterMap_parse_unknown] at hx
    obtain ⟨s, _, hsx⟩ := List.mem_filterMap.mp hx
    by_cases hse : s = ProgSignal.ended
    · rw [hse] at hsx
      simp at hsx
      exact hsx.symm
    · simp [hse] at hsx

/-- `sampleEnvOk` with a zero-second probed duration. -/
def sampleEnvZero : ConvertEnv := { sampleEnvOk with probed_duration := some 0 }

/-- Witness for `zero_duration_treated_unknown` at a concrete environment. -/
theorem zero_duration_treated_unknown_witness :
    computeDurationMs sampleEnvZero.probed_duration = none
    ∧ (∀ l e, lineSignal l = some (ProgSignal.elapsed e) →
        parseProgressLine (computeDurationMs sampleEnvZero.probed_duration) l = none)
    ∧ (∀ l q, parseProgressLine (computeDurationMs sampleEnvZero.probed_duration) l
        = some q → q = 1)
    ∧ (∀ x ∈ (convert_audio_to_video sampleEnvZero (fun _ => false)).emitted, x = 1) :=
  zero_duration_treated_unknown sampleEnvZero (fun _ => false) rfl

/-! ## Unique output paths -/

theorem charDigit_toNat (m : Nat) (hm : m < 10) :
    (Char.ofNat (48 + m)).toNat = 48 + m := by
  interval_cases m <;> rfl

theorem digitsVal_append_digit (cs : List Char) (c : Char) :
    digitsVal (cs ++ [c]) = digitsVal cs * 10 + (c.toNat - 48) := by
  simp [digitsVal, List.foldl_append]

theorem digitsVal_natStrGo : ∀ fuel n, n ≤ fuel → digitsVal (natStrGo fuel n) = n
  | 0, n, hn => by
    have h0 : n = 0 := by omega
    subst h0
    rfl
  | fuel + 1, n, hn => by
    by_cases h0 : n = 0
    · subst h0
      simp [natStrGo, digitsVal]
    · rw [natStrGo, if_neg h0, digitsVal_append_digit,
        digitsVal_natStrGo fuel (n / 10) (by omega),
        charDigit_toNat (n % 10) (Nat.mod_lt n (by norm_num))]
      omega

theorem digitsVal_natStr (n : Nat) : digitsVal (natStr n).data = n := by
  by_cases h0 : n = 0
  · subst h0
    rfl
  · rw [natStr, if_neg h0]
    exact digitsVal_natStrGo n n le_rfl

theorem natStr_data_inj {a b : Nat} (h : (natStr a).data = (natStr b).data) :
    a = b := by
  have hv := congrArg digitsVal h
  rwa [digitsVal_natStr, digitsVal_natStr] at hv

/-- Candidate paths with different counters are different strings. -/
theorem numberedPath_inj (folder base ext : String) {a b : Nat}
    (h : pathJoin folder (numberedName base ext a) =
      pathJoin folder (numberedName base ext b)) : a = b := by
  have hd := congrArg String.data h
  simp only [pathJoin, numberedName, String.data_append, List.append_assoc] at hd
  have h1 := List.append_cancel_left hd
  have h2 := List.append_cancel_left h1
  have h3 := List.append_cancel_left h2
  have h4 := List.append_cancel_left h3
  have hlen : (natStr a).data.length = (natStr b).data.length := by
    have := congrArg List.length h4
    simp only [List.length_append] at this
    omega
  exact natStr_data_inj (List.append_inj_left h4 hlen)

/-- What the counter loop returns: the first free numbered candidate at or
after `k`, provided one exists within the fuel. -/
theorem findNumbered_spec (fs : List String) (folder base ext : String) :
    ∀ (fuel k : Nat),
      (∃ j, k ≤ j ∧ j < k + fuel ∧
        pathJoin folder (numberedName base ext j) ∉ fs) →
      ∃ j, k ≤ j
        ∧ findNumbered fs folder base ext fuel k =
            pathJoin folder (numberedName base ext j)
        ∧ pathJoin folder (numberedName base ext j) ∉ fs
        ∧ ∀ i, k ≤ i → i < j → pathJoin folder (numberedName base ext i) ∈ fs
  | 0, k, hfree => by
    obtain ⟨j, hj1, hj2, _⟩ := hfree
    omega
  | fuel + 1, k, hfree => by
    by_cases hk : pathJoin folder (numberedName base ext k) ∈ fs
    · have hfree' : ∃ j, k + 1 ≤ j ∧ j < (k + 1) + fuel ∧
          pathJoin folder (numberedName base ext j) ∉ fs := by
        obtain ⟨j, hj1, hj2, hj3⟩ := hfree
        refine ⟨j, ?_, by omega, hj3⟩
        rcases Nat.eq_or_lt_of_le hj1 with heq | hlt
        · exact absurd hk (heq ▸ hj3)
        · omega
      obtain ⟨j, hj1, hj2, hj3, hj4⟩ :=
        findNumbered_spec fs folder base ext fuel (k + 1) hfree'
      refine ⟨j, by omega, ?_, hj3, ?_⟩
      · rw [findNumbered, if_pos hk]
        exact hj2
      · intro i hi1 hi2
        rcases Nat.eq_or_lt_of_le hi1 with heq | hlt
        · exact heq ▸ hk
        · exact hj4 i hlt hi2
    · refine ⟨k, le_rfl, ?_, hk, fun i hi1 hi2 => absurd hi2 (by omega)⟩
      rw [findNumbered, if_neg hk]

/-- Pigeonhole: among `fs.length + 1` distinct candidates at least one is not
in `fs`. -/
theorem exists_free_candidate (fs : List String) (folder base ext : String)
    (k : Nat) :
    ∃ j, k ≤ j ∧ j < k + (fs.length + 1) ∧
      pathJoin folder (numberedName base ext j) ∉ fs := by
  by_contra hcon
  push_neg at hcon
  set L := (List.range (fs.length + 1)).map
    (fun i => pathJoin folder (numberedName base ext (k + i))) with hL
  have hnodup : L.Nodup := by
    refine List.Nodup.map ?_ (List.nodup_range _)
    intro a b hab
    have := numberedPath_inj folder base ext hab
    omega
  have hsub : ∀ x ∈ L, x ∈ fs := by
    intro x hx
    obtain ⟨i, hi, rfl⟩ := List.mem_map.mp hx
    exact hcon (k + i) (by omega) (by simp at hi; omega)
  have hcard : L.length ≤ fs.length := by
    have h1 : L.toFinset.card = L.length := List.toFinset_card_of_nodup hnodup
    have h2 : L.toFinset ⊆ fs.toFinset := by
      intro x hx
      exact List.mem_toFinset.mpr (hsub x (List.mem_toFinset.mp hx))
    have h3 : fs.toFinset.card ≤ fs.length := fs.toFinset_card_le
    have := Finset.card_le_card h2
    omega
  have : L.length = fs.length + 1 := by simp [hL]
  omega

/-- **C8**  `get_unique_output_path` never returns a path in the existing
set: it returns `folder/base.ext` when that is free, and otherwise
`folder/"base (k)".ext` for the smallest counter `k ≥ 1` whose candidate is
free (every smaller counter's candidate exists). -/
theorem get_unique_output_path_spec (fs : List String)
    (folder base₀ ext₀ : String) :
    get_unique_output_path fs folder base₀ ext₀ ∉ fs
    ∧ (pathJoin folder (String.mk (pyStrip base₀.data) ++
        (match ext₀.data with | '.' :: _ => ext₀ | _ => "." ++ ext₀)) ∉ fs →
      get_unique_output_path fs folder base₀ ext₀ =
        pathJoin folder (String.mk (pyStrip base₀.data) ++
          (match ext₀.data with | '.' :: _ => ext₀ | _ => "." ++ ext₀)))
    ∧ (pathJoin folder (String.mk (pyStrip base₀.data) ++
        (match ext₀.data with | '.' :: _ => ext₀ | _ => "." ++ ext₀)) ∈ fs →
      ∃ k, 1 ≤ k
        ∧ get_unique_output_path fs folder base₀ ext₀ =
            pathJoin folder (numberedName (String.mk (pyStrip base₀.data))
              (match ext₀.data with | '.' :: _ => ext₀ | _ => "." ++ ext₀) k)
        ∧ pathJoin folder (numberedName (String.mk (pyStrip base₀.data))
            (match ext₀.data with | '.' :: _ => ext₀ | _ => "." ++ ext₀) k) ∉ fs
        ∧ ∀ i, 1 ≤ i → i < k →
            pathJoin folder (numberedName (String.mk (pyStrip base₀.data))
              (match ext₀.data with | '.' :: _ => ext₀ | _ => "." ++ ext₀) i) ∈ fs) := by
  set base := String.mk (pyStrip base₀.data) with hbase
  set ext : String := (match ext₀.data with | '.' :: _ => ext₀ | _ => "." ++ ext₀)
    with hext
  by_cases hfirst : pathJoin folder (base ++ ext) ∈ fs
  · obtain ⟨j, hj1, hj2, hj3, hj4⟩ := findNumbered_spec fs folder base ext
      (fs.length + 1) 1 (exists_free_candidate fs folder base ext 1)
    have heq : get_unique_output_path fs folder base₀ ext₀ =
        findNumbered fs folder base ext (fs.length + 1) 1 := by
      rw [get_unique_output_path]
      simp only [← hbase, ← hext]
      rw [if_pos hfirst]
    refine ⟨?_, fun hc => absurd hfirst hc, fun _ => ⟨j, hj1, ?_, hj3, hj4⟩⟩
    · rw [heq, hj2]
      exact hj3
    · rw [heq, hj2]
  · have heq : get_unique_output_path fs folder base₀ ext₀ =
        pathJoin folder (base ++ ext) := by
      rw [get_unique_output_path]
      simp only [← hbase, ← hext]
      rw [if_neg hfirst]
    exact ⟨heq ▸ hfirst, fun _ => heq, fun hc => absurd hc hfirst⟩

/-- Witness for `get_unique_output_path_spec`: with `track.mpg` and
`track (1).mpg` present, the result is `track (2).mpg`, which does not
exist. -/
theorem get_unique_output_path_spec_witness :
    get_unique_output_path ["D/track.mpg", "D/track (1).mpg"] "D" "track" ".mpg" =
      "D/track (2).mpg"
    ∧ get_unique_output_path ["D/track.mpg", "D/track (1).mpg"] "D" "track" ".mpg" ∉
        ["D/track.mpg", "D/track (1).mpg"]
    ∧ (∃ k, 1 ≤ k
        ∧ get_unique_output_path ["D/track.mpg", "D/track (1).mpg"] "D" "track" ".mpg" =
            pathJoin "D" (numberedName "track" ".mpg" k)
        ∧ pathJoin "D" (numberedName "track" ".mpg" k) ∉
            ["D/track.mpg", "D/track (1).mpg"]
        ∧ ∀ i, 1 ≤ i → i < k →
            pathJoin "D" (numberedName "track" ".mpg" i) ∈
              ["D/track.mpg", "D/track (1).mpg"]) := by
  refine ⟨by decide,
    (get_unique_output_path_spec ["D/track.mpg", "D/track (1).mpg"] "D" "track" ".mpg").1,
    (get_unique_output_path_spec ["D/track.mpg", "D/track (1).mpg"] "D" "track" ".mpg").2.2
      (by decide)⟩

/-! ## Output-path assignment at queue start -/

/-- **C9 (failing input)**  The path-assignment loop of `start_conversion`
computes every job's output path against the same file-system snapshot and
reserves nothing, so two queued jobs with the same base name `track` over an
empty output folder are both assigned `out/track.mpg` — the claimed
pairwise distinctness is violated by the code. -/
theorem assignPaths_duplicate :
    assignPaths [] "out" ["track", "track"] = ["out/track.mpg", "out/track.mpg"]
    ∧ ¬ (assignPaths [] "out" ["track", "track"]).Pairwise (· ≠ ·) := by
  constructor
  · decide
  · decide
